import Mathlib

/-!
Verification development for the page-quality analyzer server
(`server.js`): a shallow embedding, in Lean 4, of its resource
pipeline — skippability classification, URL-keyed deduplication,
the two-phase probe strategy, the checkable-resource cap, the
result merge, summary statistics, and the bounded-concurrency
dispatcher — together with theorems settling the specification's
claims about it.

Conventions of the embedding:
* URL resolution (`new URL(relative, base).href` in `resolveUrl`)
  is the WHATWG parser of the JavaScript runtime, external to the
  repository; the pipeline is therefore parametrised by a function
  `resolve : String → Option String` (`none` models the `null`
  returned on a parse failure).
* The network is parametrised by a `ServerBehavior` per URL giving
  the final observed HTTP status (`none` = timeout / DNS /
  connection failure) and the wall-clock duration of each phase;
  `axios` resolves a request exactly when the status satisfies its
  default `validateStatus` (200 ≤ s < 300) and otherwise rejects
  with `error.response.status` carrying the status when the server
  responded.
* JavaScript `Date.now()` timestamps are modelled by an explicit
  virtual clock: phase 1 starts at 0 and takes `headMs`; phase 2
  starts when phase 1 ends and takes `getMs`.
* JavaScript string operations (`trim`, `toLowerCase`,
  `startsWith`) are modelled on `List Char`, faithful on ASCII
  input (the JS originals also handle non-ASCII whitespace and
  case, which the analyzed URL schemes never contain).
-/

set_option maxRecDepth 100000

namespace PageAnalyzer

/-! ## JavaScript string primitives -/

/-- Whitespace recognised by the model of `String.prototype.trim`
(ASCII subset of the WhiteSpace/LineTerminator productions). -/
def jsWhitespace (c : Char) : Bool :=
  c = ' ' || c = '\t' || c = '\n' || c = '\r' || c = '\x0b' || c = '\x0c'

/-- Model of `String.prototype.trim`: drop whitespace from both ends. -/
def jsTrim (s : String) : String :=
  ⟨((s.data.dropWhile jsWhitespace).reverse.dropWhile jsWhitespace).reverse⟩

/-- ASCII lower-casing of one character (model of `toLowerCase`). -/
def jsLowerChar (c : Char) : Char :=
  if 'A' ≤ c && c ≤ 'Z' then Char.ofNat (c.toNat + 32) else c

/-- Model of `String.prototype.toLowerCase` (ASCII). -/
def jsToLower (s : String) : String :=
  ⟨s.data.map jsLowerChar⟩

/-- Model of `String.prototype.startsWith`. -/
def jsStartsWith (s pre : String) : Bool :=
  pre.data.isPrefixOf s.data

/-! ## Skippability classifier (`isSkippableHref` in `server.js`) -/

/-- `isSkippableHref(href)`: `!href` (the empty string is falsy)
returns `true` early; otherwise the trimmed, lower-cased value is
tested against `javascript:`, `mailto:`, `tel:`, `#` and `""`, in
the source's order. -/
def isSkippableHref (href : String) : Bool :=
  if href = "" then true
  else
    let l := jsToLower (jsTrim href)
    jsStartsWith l "javascript:" || jsStartsWith l "mailto:" ||
      jsStartsWith l "tel:" || l == "#" || l == ""

/-- The specification's wording of skippability: after trimming
whitespace and lower-casing, the reference is empty, exactly `#`,
or begins with `javascript:`, `mailto:` or `tel:`. Stated
separately from `isSkippableHref` so the two can be compared. -/
def skippableSpec (href : String) : Bool :=
  let l := jsToLower (jsTrim href)
  l == "" || l == "#" || jsStartsWith l "javascript:" ||
    jsStartsWith l "mailto:" || jsStartsWith l "tel:"

/-! ## Probe strategy (`fetchWithHeadThenGet` in `server.js`) -/

/-- The network's behaviour towards one URL: the final status each
phase observes after redirect-following (`none` = no response:
timeout, DNS failure, connection refused), the duration of each
phase, and the runtime's error message for each phase. -/
structure ServerBehavior where
  headResp : Option Nat
  headMs : Nat
  headErr : String
  getResp : Option Nat
  getMs : Nat
  getErr : String
deriving DecidableEq

/-- axios's default `validateStatus`: a response resolves the
promise exactly when `200 <= status < 300`; any other status makes
the request reject with `error.response.status` set. -/
def axiosAccepts (s : Nat) : Bool :=
  decide (200 ≤ s) && decide (s < 300)

/-- The record returned by `fetchWithHeadThenGet`: `status` is
`"ok"` or `"error"`, `httpStatus` the observed status if any,
`timeMs` the elapsed milliseconds of the phase that produced the
record, `error` the error message on failure. -/
structure FetchResult where
  status : String
  httpStatus : Option Nat
  timeMs : Nat
  error : Option String
deriving DecidableEq

/-- Phase 2 of the probe (`axios.get` inside the `catch` block):
`start2` is the virtual-clock time at which the phase starts. On a
rejection, `code` is `getErr.response.status` when the server
responded with a (truthy) status, else `null`. A resolved GET's
body stream is destroyed before reading, which does not affect any
recorded field. -/
def fetchGetPhase (b : ServerBehavior) (start2 : Nat) : FetchResult :=
  let getEnd := start2 + b.getMs
  match b.getResp with
  | some s =>
    if axiosAccepts s then
      { status := "ok", httpStatus := some s, timeMs := getEnd - start2, error := none }
    else
      { status := "error",
        httpStatus := if s ≠ 0 then some s else none,
        timeMs := getEnd - start2,
        error := some b.getErr }
  | none =>
      { status := "error", httpStatus := none, timeMs := getEnd - start2,
        error := some b.getErr }

/-- `fetchWithHeadThenGet(url)`: try `axios.head` first; on any
rejection fall back to `fetchGetPhase`, whose clock starts
(`start2 = Date.now()`) only after phase 1 has ended. -/
def fetchWithHeadThenGet (b : ServerBehavior) : FetchResult :=
  let start := 0
  let headEnd := start + b.headMs
  match b.headResp with
  | some s =>
    if axiosAccepts s then
      { status := "ok", httpStatus := some s, timeMs := headEnd - start, error := none }
    else
      fetchGetPhase b headEnd
  | none => fetchGetPhase b headEnd

/-! ## Resolution and deduplication (the `resources` map in `server.js`) -/

/-- One raw reference handed to the core by the extraction layer:
its kind (`type` in the source) and the literal string (`raw`). -/
structure RawResource where
  type : String
  raw : String
deriving DecidableEq

/-- One entry of the `resources` array: the fields built by the
`rawResources.map((r, idx) => ...)` closure. -/
structure Resource where
  id : String
  type : String
  raw : String
  resolved : Option String
  skippable : Bool
  duplicateOf : Option String
deriving DecidableEq

/-- Lookup in the `seen` `Map`. The map's keys are the values of
`resolved`, so `null` (here `none`) is itself a legitimate key,
exactly as for a JavaScript `Map`. Entries are only ever inserted
for absent keys, so first-match lookup is the map's lookup. -/
def seenFind (seen : List (Option String × String)) (k : Option String) : Option String :=
  match seen with
  | [] => none
  | (k₁, v) :: rest => if k₁ = k then some v else seenFind rest k

/-- The id a reference receives: `resolved || type:raw:idx`
(a resolved URL's `.href` is never the empty string, so JavaScript
truthiness of `resolved` is `isSome`). -/
def keyOf (resolve : String → Option String) (r : RawResource) (idx : Nat) : String :=
  match resolve r.raw with
  | some u => u
  | none => r.type ++ ":" ++ r.raw ++ ":" ++ toString idx

/-- The body of the `rawResources.map` closure, with the mutable
`seen` map and the running index made explicit. -/
def buildResourcesGo (resolve : String → Option String) :
    Nat → List (Option String × String) → List RawResource → List Resource
  | _, _, [] => []
  | idx, seen, r :: rest =>
    let resolved := resolve r.raw
    let key := keyOf resolve r idx
    let dup := seenFind seen resolved
    let seen1 :=
      match seenFind seen resolved with
      | some _ => seen
      | none => seen ++ [(resolved, key)]
    { id := key, type := r.type, raw := r.raw, resolved := resolved,
      skippable := isSkippableHref r.raw, duplicateOf := dup } ::
      buildResourcesGo resolve (idx + 1) seen1 rest

/-- The `resources` array: map over the raw references starting
from an empty `seen` map and index 0. -/
def buildResources (resolve : String → Option String) (raws : List RawResource) : List Resource :=
  buildResourcesGo resolve 0 [] raws

/-- The key of the first element of `l` (numbered from `idx`)
whose resolution equals `target`, if any. Characterises what the
`seen` map holds for `target` after processing `l`. -/
def firstKey (resolve : String → Option String) :
    List RawResource → Nat → Option String → Option String
  | [], _, _ => none
  | r :: rest, idx, target =>
    if resolve r.raw = target then some (keyOf resolve r idx)
    else firstKey resolve rest (idx + 1) target

theorem seenFind_append_single (seen : List (Option String × String))
    (k : Option String) (v : String) (t : Option String) :
    seenFind (seen ++ [(k, v)]) t =
      match seenFind seen t with
      | some w => some w
      | none => if k = t then some v else none := by
  induction seen with
  | nil => simp [seenFind]
  | cons p rest ih =>
    obtain ⟨k₁, v₁⟩ := p
    by_cases h : k₁ = t <;> simp [seenFind, h, ih]

/-- Master characterisation of the `resources` construction: the
entry at position `i` records the raw reference's fields, the id
`keyOf`, and as `duplicateOf` the id the `seen` map associates to
its resolution — that of the first earlier reference sharing the
same resolution value. -/
theorem buildResourcesGo_getElem? (resolve : String → Option String)
    (l : List RawResource) :
    ∀ (idx : Nat) (seen : List (Option String × String)) (i : Nat) (r : RawResource),
      l[i]? = some r →
      (buildResourcesGo resolve idx seen l)[i]? = some
        { id := keyOf resolve r (idx + i), type := r.type, raw := r.raw,
          resolved := resolve r.raw, skippable := isSkippableHref r.raw,
          duplicateOf :=
            match seenFind seen (resolve r.raw) with
            | some v => some v
            | none => firstKey resolve (l.take i) idx (resolve r.raw) } := by
  induction l with
  | nil => intro idx seen i r h; simp at h
  | cons r₀ rest ih =>
    intro idx seen i r h
    match i with
    | 0 =>
      simp only [List.getElem?_cons_zero, Option.some.injEq] at h
      subst h
      simp only [buildResourcesGo, List.getElem?_cons_zero, List.take_zero,
        firstKey, Option.some.injEq]
      cases hs : seenFind seen (resolve r₀.raw) <;> simp
    | i + 1 =>
      simp only [List.getElem?_cons_succ] at h
      simp only [buildResourcesGo, List.getElem?_cons_succ, List.take_succ_cons]
      cases hs : seenFind seen (resolve r₀.raw) with
      | some w =>
        rw [ih (idx + 1) seen i r h]
        have harith : idx + 1 + i = idx + (i + 1) := by omega
        rw [harith]
        simp only [Option.some.injEq, Resource.mk.injEq, true_and, and_true]
        cases ht : seenFind seen (resolve r.raw) with
        | some v => simp
        | none =>
          have hne : resolve r₀.raw ≠ resolve r.raw := by
            intro he; rw [he, ht] at hs; exact Option.noConfusion hs
          simp [firstKey, hne]
      | none =>
        rw [ih (idx + 1) (seen ++ [(resolve r₀.raw, keyOf resolve r₀ idx)]) i r h]
        have harith : idx + 1 + i = idx + (i + 1) := by omega
        rw [harith]
        simp only [Option.some.injEq, Resource.mk.injEq, true_and, and_true]
        rw [seenFind_append_single]
        cases ht : seenFind seen (resolve r.raw) with
        | some v => simp
        | none =>
          by_cases he : resolve r₀.raw = resolve r.raw
          · simp [firstKey, he]
          · simp [firstKey, he]

/-- Specialisation to `buildResources`: `duplicateOf` is exactly
the id of the first earlier reference with the same resolution. -/
theorem buildResources_getElem? (resolve : String → Option String)
    (raws : List RawResource) (i : Nat) (r : RawResource)
    (h : raws[i]? = some r) :
    (buildResources resolve raws)[i]? = some
      { id := keyOf resolve r i, type := r.type, raw := r.raw,
        resolved := resolve r.raw, skippable := isSkippableHref r.raw,
        duplicateOf := firstKey resolve (raws.take i) 0 (resolve r.raw) } := by
  have := buildResourcesGo_getElem? resolve raws 0 [] i r h
  simpa [seenFind] using this

/-- A hit of `firstKey` comes from an actual element of the list:
some position `j` resolves to the target and contributes its key. -/
theorem firstKey_eq_some (resolve : String → Option String) :
    ∀ (l : List RawResource) (idx : Nat) (target : Option String) (v : String),
      firstKey resolve l idx target = some v →
      ∃ j r₁, l[j]? = some r₁ ∧ resolve r₁.raw = target ∧ v = keyOf resolve r₁ (idx + j) := by
  intro l
  induction l with
  | nil => intro idx target v h; simp [firstKey] at h
  | cons r₀ rest ih =>
    intro idx target v h
    simp only [firstKey] at h
    by_cases he : resolve r₀.raw = target
    · rw [if_pos he] at h
      exact ⟨0, r₀, by simp, he, by simpa using h.symm⟩
    · rw [if_neg he] at h
      obtain ⟨j, r₁, hj, hres, hv⟩ := ih (idx + 1) target v h
      refine ⟨j + 1, r₁, by simpa using hj, hres, ?_⟩
      rw [show idx + (j + 1) = idx + 1 + j from by omega]
      exact hv

/-- When position `j₀` is the first one resolving to the target,
`firstKey` returns exactly its key. -/
theorem firstKey_of_first (resolve : String → Option String) :
    ∀ (l : List RawResource) (idx : Nat) (target : Option String) (j₀ : Nat) (r₀ : RawResource),
      l[j₀]? = some r₀ → resolve r₀.raw = target →
      (∀ k r₁, k < j₀ → l[k]? = some r₁ → resolve r₁.raw ≠ target) →
      firstKey resolve l idx target = some (keyOf resolve r₀ (idx + j₀)) := by
  intro l
  induction l with
  | nil => intro idx target j₀ r₀ h; simp at h
  | cons rh rest ih =>
    intro idx target j₀ r₀ h hres hfirst
    match j₀ with
    | 0 =>
      simp only [List.getElem?_cons_zero, Option.some.injEq] at h
      subst h
      simp [firstKey, hres]
    | j + 1 =>
      simp only [List.getElem?_cons_succ] at h
      have hne : resolve rh.raw ≠ target := by
        have := hfirst 0 rh (Nat.succ_pos j) (by simp)
        exact this
      simp only [firstKey, if_neg hne]
      rw [show idx + (j + 1) = idx + 1 + j from by omega]
      refine ih (idx + 1) target j r₀ h hres ?_
      intro k r₁ hk hkk
      exact hfirst (k + 1) r₁ (by omega) (by simpa using hkk)

/-! ## The analysis pipeline (`/api/analyze` route in `server.js`) -/

/-- The hard cap on checkable resources (`MAX_CHECK` in the source). -/
def MAX_CHECK : Nat := 300

/-- The worker-pool size (`CONCURRENCY` in the source). -/
def CONCURRENCY : Nat := 8

/-- One element of the `finalResources` array: the resource fields
plus whichever of `status`, `httpStatus`, `timeMs`, `error`,
`note` the merge attaches (`none` models an absent/`null` field). -/
structure FinalRecord where
  id : String
  type : String
  raw : String
  resolved : Option String
  skippable : Bool
  duplicateOf : Option String
  status : String
  httpStatus : Option Nat
  timeMs : Option Nat
  error : Option String
  note : Option String
deriving DecidableEq

/-- `resources.filter(r => r.resolved && !r.skippable)`: the
checkable items (a resolved `.href` is never empty, so truthiness
of `resolved` is `isSome`). -/
def toCheckOf (resolve : String → Option String) (raws : List RawResource) : List Resource :=
  (buildResources resolve raws).filter (fun r => r.resolved.isSome && !r.skippable)

/-- `toCheck.slice(0, MAX_CHECK)`. -/
def toCheckLimitedOf (resolve : String → Option String) (raws : List RawResource) : List Resource :=
  (toCheckOf resolve raws).take MAX_CHECK

/-- The URL handed to the probe (`item.resolved`; always present
for checkable items). -/
def urlOf (r : Resource) : String := r.resolved.getD ""

/-- `Object.assign({}, item, data)` for a checked item: every field
of the probe record is attached to the item's fields. -/
def mergeChecked (r : Resource) (f : FetchResult) : FinalRecord :=
  { id := r.id, type := r.type, raw := r.raw, resolved := r.resolved,
    skippable := r.skippable, duplicateOf := r.duplicateOf,
    status := f.status, httpStatus := f.httpStatus, timeMs := some f.timeMs,
    error := f.error, note := none }

/-- The `checked` array produced by `checkResources(toCheckLimited)`:
one probe per element of the capped list. The source collects the
records in completion order, which the scheduler determines; the
model fixes it to input order (for a deterministic per-URL
`behavior` the record contents do not depend on this choice, only
which of several same-URL records the later `Map` keeps). -/
def checkedOf (behavior : String → ServerBehavior) (resolve : String → Option String)
    (raws : List RawResource) : List FinalRecord :=
  (toCheckLimitedOf resolve raws).map
    (fun r => mergeChecked r (fetchWithHeadThenGet (behavior (urlOf r))))

/-- Lookup in a JavaScript `Map` built with `new Map(entries)`:
for duplicate keys the last entry wins. -/
def lastAssoc (l : List (Option String × FinalRecord)) (k : Option String) : Option FinalRecord :=
  l.foldl (fun acc p => if p.1 = k then some p.2 else acc) none

/-- `checkedMap.get(k)` where
`checkedMap = new Map(checked.map(c => [c.resolved, c]))`. -/
def checkedGet (checked : List FinalRecord) (k : Option String) : Option FinalRecord :=
  lastAssoc (checked.map (fun c => (c.resolved, c))) k

/-- The `finalResources` branch for an unresolved item. -/
def unresolvedRecord (r : Resource) : FinalRecord :=
  { id := r.id, type := r.type, raw := r.raw, resolved := r.resolved,
    skippable := r.skippable, duplicateOf := r.duplicateOf,
    status := "unresolved", httpStatus := none, timeMs := none, error := none,
    note := some "Could not resolve URL" }

/-- The `finalResources` branch for a skippable item. -/
def skippedRecord (r : Resource) : FinalRecord :=
  { id := r.id, type := r.type, raw := r.raw, resolved := r.resolved,
    skippable := r.skippable, duplicateOf := r.duplicateOf,
    status := "skipped", httpStatus := none, timeMs := none, error := none,
    note := some "Skippable (mailto/tel/javascript/#)" }

/-- The `finalResources` branch for an item past the cap. -/
def notCheckedRecord (r : Resource) : FinalRecord :=
  { id := r.id, type := r.type, raw := r.raw, resolved := r.resolved,
    skippable := r.skippable, duplicateOf := r.duplicateOf,
    status := "not_checked", httpStatus := none, timeMs := none, error := none,
    note := some "Not checked (limit reached or queued)" }

/-- The body of the `finalResources` map: unresolved first, then
skippable, then the `checkedMap` lookup. When a checked record is
found, `Object.assign({}, r, found)` overwrites every one of `r`'s
fields with `found`'s (the checked record carries all of them), so
the merged record is `found` itself. -/
def classifyOne (checked : List FinalRecord) (r : Resource) : FinalRecord :=
  match r.resolved with
  | none => unresolvedRecord r
  | some _ =>
    if r.skippable then skippedRecord r
    else
      match checkedGet checked r.resolved with
      | some found => found
      | none => notCheckedRecord r

/-- The `finalResources` array. -/
def finalResourcesOf (behavior : String → ServerBehavior) (resolve : String → Option String)
    (raws : List RawResource) : List FinalRecord :=
  (buildResources resolve raws).map (classifyOne (checkedOf behavior resolve raws))

/-! ## Summary computation -/

/-- The `broken` filter predicate:
`r.status === 'error' || (r.httpStatus && r.httpStatus >= 400)`
(the second conjunct first tests `httpStatus` for truthiness). -/
def brokenPredF (r : FinalRecord) : Bool :=
  r.status == "error" ||
    (match r.httpStatus with
     | some h => decide (h ≠ 0) && decide (400 ≤ h)
     | none => false)

/-- `summary.brokenCount`. -/
def brokenCountOf (behavior : String → ServerBehavior) (resolve : String → Option String)
    (raws : List RawResource) : Nat :=
  ((finalResourcesOf behavior resolve raws).filter brokenPredF).length

/-- The `times` array of the average computation:
`finalResources.filter(r => r.timeMs != null && r.status === 'ok').map(r => r.timeMs)`. -/
def timesOf (final : List FinalRecord) : List Nat :=
  (final.filter (fun r => r.timeMs.isSome && r.status == "ok")).filterMap (fun r => r.timeMs)

/-- `Math.round(s / l)` for natural `s` and positive natural `l`:
halves round up, so the value is `⌊s / l + 1 / 2⌋`. (With the
magnitudes reachable here — sums below 2^32 — the double-precision
division in the source computes this exactly.) -/
def jsMathRound (s l : Nat) : Nat := (2 * s + l) / (2 * l)

/-- `avgResponse`: `null` when no time qualifies, else the rounded
mean of the qualifying times. -/
def avgResponseOf (final : List FinalRecord) : Option Nat :=
  let times := timesOf final
  if times.length = 0 then none else some (jsMathRound times.sum times.length)

/-- `summary.averageResponseMs`. -/
def averageResponseMsOf (behavior : String → ServerBehavior) (resolve : String → Option String)
    (raws : List RawResource) : Option Nat :=
  avgResponseOf (finalResourcesOf behavior resolve raws)

/-! ## The bounded-concurrency dispatcher (`checkResources` in `server.js`)

`checkResources` spawns `CONCURRENCY` async workers over one shared
queue. Each worker repeatedly: checks `queue.length` and dequeues
with `queue.shift()` (one synchronous, hence atomic, action in the
JavaScript event loop), awaits the probe for the dequeued item, and
pushes the completed record onto the shared `results` array (again
atomic). A worker observing an empty queue leaves its loop for
good. The model is a small-step transition system over these three
atomic actions, with workers interleaved arbitrarily. -/

/-- A worker is between dequeues (`idle`), awaiting one probe
(`busy`), or has observed an empty queue and returned (`done`). -/
inductive WStatus (α : Type) where
  | idle : WStatus α
  | busy : α → WStatus α
  | done : WStatus α
deriving DecidableEq

/-- Shared state of one `checkResources` run: the pending queue,
the worker pool, and the results collected so far. -/
structure DispState (α : Type) where
  queue : List α
  workers : List (WStatus α)
  results : List α
deriving DecidableEq

/-- Initial state: the input items queued, `CONCURRENCY` idle
workers, no results. -/
def dispatchInit {α : Type} (items : List α) : DispState α :=
  ⟨items, List.replicate CONCURRENCY WStatus.idle, []⟩

/-- One atomic action of one worker: `grab` = test-and-shift on a
nonempty queue, `finish` = the awaited probe completes and its
result is pushed, `exit` = the worker observes an empty queue and
terminates. -/
inductive DStep {α : Type} : DispState α → DispState α → Prop where
  | grab (i : Nat) (x : α) (qr : List α) (ws : List (WStatus α)) (res : List α) :
      ws[i]? = some WStatus.idle →
      DStep ⟨x :: qr, ws, res⟩ ⟨qr, ws.set i (WStatus.busy x), res⟩
  | finish (i : Nat) (x : α) (q : List α) (ws : List (WStatus α)) (res : List α) :
      ws[i]? = some (WStatus.busy x) →
      DStep ⟨q, ws, res⟩ ⟨q, ws.set i WStatus.idle, res ++ [x]⟩
  | exit (i : Nat) (ws : List (WStatus α)) (res : List α) :
      ws[i]? = some WStatus.idle →
      DStep ⟨[], ws, res⟩ ⟨[], ws.set i WStatus.done, res⟩

/-- Does a worker currently have a probe in flight? -/
def busyFlag {α : Type} (w : WStatus α) : Bool :=
  match w with | WStatus.busy _ => true | _ => false

/-- The item a busy worker holds. -/
def busyPayload {α : Type} (w : WStatus α) : Option α :=
  match w with | WStatus.busy x => some x | _ => none

/-- Number of probes in flight. -/
def busyCount {α : Type} (ws : List (WStatus α)) : Nat := ws.countP busyFlag

/-- The items currently held by busy workers. -/
def busyItems {α : Type} (ws : List (WStatus α)) : List α := ws.filterMap busyPayload

/-- The pool has terminated: every worker has returned. -/
def allDone {α : Type} (s : DispState α) : Prop := ∀ w ∈ s.workers, w = WStatus.done

/-- Reachability of a dispatcher state from the initial state by
any interleaving of worker actions. -/
def DReach {α : Type} (items : List α) (s : DispState α) : Prop :=
  Relation.ReflTransGen DStep (dispatchInit items) s

theorem filterMap_set_multiset {α β : Type} (f : α → Option β) :
    ∀ (l : List α) (i : Nat) (w w' : α), l[i]? = some w →
      (↑((l.set i w').filterMap f) + ↑(f w).toList : Multiset β) =
        ↑(l.filterMap f) + ↑(f w').toList := by
  intro l
  induction l with
  | nil => intro i w w' h; simp at h
  | cons a t ih =>
    intro i w w' h
    match i with
    | 0 =>
      simp only [List.getElem?_cons_zero, Option.some.injEq] at h
      subst h
      simp only [List.set_cons_zero, List.filterMap_cons]
      cases hfw : f a <;> cases hfw2 : f w' <;>
        simp only [Option.toList, List.filterMap_cons, hfw, hfw2, Multiset.coe_nil,
          ← Multiset.cons_coe, ← Multiset.singleton_add, add_zero, zero_add] <;>
        abel
    | i + 1 =>
      simp only [List.getElem?_cons_succ] at h
      simp only [List.set_cons_succ, List.filterMap_cons]
      cases hfa : f a
      · exact ih i w w' h
      · simp only [← Multiset.cons_coe, Multiset.cons_add]
        rw [ih i w w' h]

/-- The dispatcher invariant: the pool size never changes, the
queued, in-flight and completed items together are exactly the
input items, and the queue is emptied before the pool can die. -/
def DInv {α : Type} (items : List α) (s : DispState α) : Prop :=
  s.workers.length = CONCURRENCY ∧
  (↑s.queue + ↑(busyItems s.workers) + ↑s.results : Multiset α) = ↑items ∧
  (s.queue = [] ∨ ∃ w ∈ s.workers, w ≠ WStatus.done)

theorem DInv_init {α : Type} (items : List α) : DInv items (dispatchInit items) := by
  refine ⟨by simp [dispatchInit], ?_, ?_⟩
  · simp [dispatchInit, busyItems, busyPayload, List.filterMap_replicate]
  · right
    exact ⟨WStatus.idle, by simp [dispatchInit, CONCURRENCY], by simp⟩

theorem mem_of_set_getElem? {α : Type} (l : List α) (i : Nat) (a b : α)
    (h : l[i]? = some a) : b ∈ l.set i b := by
  have hi : i < l.length := by
    by_contra hge
    rw [List.getElem?_eq_none (by omega)] at h
    exact Option.noConfusion h
  have hsome : (l.set i b)[i]? = some b := by
    rw [List.getElem?_set]
    simp [hi, List.getElem?_eq_getElem hi]
  exact List.getElem?_mem hsome

theorem DInv_step {α : Type} (items : List α) (s s' : DispState α)
    (hinv : DInv items s) (hstep : DStep s s') : DInv items s' := by
  obtain ⟨hlen, hmul, hq⟩ := hinv
  cases hstep with
  | grab i x qr ws res hidle =>
    simp only [DispState.workers, DispState.queue, DispState.results] at hlen hmul hq ⊢
    have hset := filterMap_set_multiset busyPayload ws i WStatus.idle (WStatus.busy x) hidle
    simp only [busyPayload, Option.toList, Multiset.coe_nil, add_zero] at hset
    refine ⟨by simpa using hlen, ?_, ?_⟩
    · show (↑qr + ↑(busyItems (ws.set i (WStatus.busy x))) + ↑res : Multiset α) = ↑items
      simp only [busyItems] at hmul ⊢
      rw [← hmul, ← Multiset.cons_coe, hset]
      simp only [← Multiset.singleton_add, Multiset.coe_singleton]
      abel
    · right
      exact ⟨WStatus.busy x, mem_of_set_getElem? ws i WStatus.idle _ hidle, by simp⟩
  | finish i x q ws res hbusy =>
    simp only [DispState.workers, DispState.queue, DispState.results] at hlen hmul hq ⊢
    have hset := filterMap_set_multiset busyPayload ws i (WStatus.busy x) WStatus.idle hbusy
    simp only [busyPayload, Option.toList, Multiset.coe_nil, add_zero] at hset
    refine ⟨by simpa using hlen, ?_, ?_⟩
    · show (↑q + ↑(busyItems (ws.set i WStatus.idle)) + ↑(res ++ [x]) : Multiset α) = ↑items
      simp only [busyItems] at hmul ⊢
      rw [← hmul, ← Multiset.coe_add, ← hset]
      simp only [← Multiset.singleton_add, Multiset.coe_singleton]
      abel
    · right
      exact ⟨WStatus.idle, mem_of_set_getElem? ws i (WStatus.busy x) _ hbusy, by simp⟩
  | exit i ws res hidle =>
    simp only [DispState.workers, DispState.queue, DispState.results] at hlen hmul hq ⊢
    have hset := filterMap_set_multiset busyPayload ws i WStatus.idle WStatus.done hidle
    simp only [busyPayload, Option.toList, Multiset.coe_nil, add_zero] at hset
    refine ⟨by simpa using hlen, ?_, Or.inl rfl⟩
    show (↑([] : List α) + ↑(busyItems (ws.set i WStatus.done)) + ↑res : Multiset α) = ↑items
    simp only [busyItems] at hmul ⊢
    rw [← hmul, hset]

theorem DInv_reach {α : Type} (items : List α) (s : DispState α)
    (h : DReach items s) : DInv items s := by
  induction h with
  | refl => exact DInv_init items
  | tail hsteps hstep ih => exact DInv_step items _ _ ih hstep

/-! ## Claim C9 -/

/-- C9: in every reachable state of the dispatcher, no more than
`concurrencyLimit` (= `CONCURRENCY` = 8) probes are in flight
simultaneously, for any input; and once all workers have
terminated, the completed results cover every input item exactly
once (they are a permutation of the input). -/
theorem C9_dispatcher_bound_and_coverage {α : Type} (items : List α) (s : DispState α)
    (h : DReach items s) :
    busyCount s.workers ≤ CONCURRENCY ∧ (allDone s → s.results.Perm items) := by
  obtain ⟨hlen, hmul, hq⟩ := DInv_reach items s h
  constructor
  · calc busyCount s.workers ≤ s.workers.length := List.countP_le_length _
      _ = CONCURRENCY := hlen
  · intro hdone
    have hb : busyItems s.workers = [] := by
      refine List.filterMap_eq_nil_iff.mpr ?_
      intro w hw
      rw [hdone w hw]
      rfl
    have hqe : s.queue = [] := by
      rcases hq with h1 | ⟨w, hw, hne⟩
      · exact h1
      · exact absurd (hdone w hw) hne
    rw [hqe, hb] at hmul
    simp only [Multiset.coe_nil, zero_add] at hmul
    exact Multiset.coe_eq_coe.mp hmul

/-- A terminated dispatcher state over the one-item input `[0]`. -/
def dispFinalState : DispState Nat :=
  ⟨[], List.replicate CONCURRENCY WStatus.done, [0]⟩

/-- Witness for C9: an explicit interleaving over the input `[0]`
reaches a terminated state, and the theorem instantiates there. -/
theorem C9_witness :
    DReach [0] dispFinalState ∧
    (busyCount dispFinalState.workers ≤ CONCURRENCY ∧
      (allDone dispFinalState → dispFinalState.results.Perm [0])) := by
  have hreach : DReach [0] dispFinalState := by
    open WStatus in
    have s1 : DStep (dispatchInit [0])
        ⟨[], [busy 0, idle, idle, idle, idle, idle, idle, idle], []⟩ :=
      DStep.grab 0 0 [] _ [] rfl
    open WStatus in
    have s2 : DStep ⟨[], [busy 0, idle, idle, idle, idle, idle, idle, idle], []⟩
        ⟨[], [idle, idle, idle, idle, idle, idle, idle, idle], [0]⟩ :=
      DStep.finish 0 0 [] _ [] rfl
    open WStatus in
    have s3 : DStep ⟨[], [idle, idle, idle, idle, idle, idle, idle, idle], [0]⟩
        ⟨[], [done, idle, idle, idle, idle, idle, idle, idle], [0]⟩ :=
      DStep.exit 0 _ [0] rfl
    open WStatus in
    have s4 : DStep ⟨[], [done, idle, idle, idle, idle, idle, idle, idle], [0]⟩
        ⟨[], [done, done, idle, idle, idle, idle, idle, idle], [0]⟩ :=
      DStep.exit 1 _ [0] rfl
    open WStatus in
    have s5 : DStep ⟨[], [done, done, idle, idle, idle, idle, idle, idle], [0]⟩
        ⟨[], [done, done, done, idle, idle, idle, idle, idle], [0]⟩ :=
      DStep.exit 2 _ [0] rfl
    open WStatus in
    have s6 : DStep ⟨[], [done, done, done, idle, idle, idle, idle, idle], [0]⟩
        ⟨[], [done, done, done, done, idle, idle, idle, idle], [0]⟩ :=
      DStep.exit 3 _ [0] rfl
    open WStatus in
    have s7 : DStep ⟨[], [done, done, done, done, idle, idle, idle, idle], [0]⟩
        ⟨[], [done, done, done, done, done, idle, idle, idle], [0]⟩ :=
      DStep.exit 4 _ [0] rfl
    open WStatus in
    have s8 : DStep ⟨[], [done, done, done, done, done, idle, idle, idle], [0]⟩
        ⟨[], [done, done, done, done, done, done, idle, idle], [0]⟩ :=
      DStep.exit 5 _ [0] rfl
    open WStatus in
    have s9 : DStep ⟨[], [done, done, done, done, done, done, idle, idle], [0]⟩
        ⟨[], [done, done, done, done, done, done, done, idle], [0]⟩ :=
      DStep.exit 6 _ [0] rfl
    open WStatus in
    have s10 : DStep ⟨[], [done, done, done, done, done, done, done, idle], [0]⟩
        dispFinalState :=
      DStep.exit 7 _ [0] rfl
    exact Relation.ReflTransGen.head s1 (Relation.ReflTransGen.head s2
      (Relation.ReflTransGen.head s3 (Relation.ReflTransGen.head s4
      (Relation.ReflTransGen.head s5 (Relation.ReflTransGen.head s6
      (Relation.ReflTransGen.head s7 (Relation.ReflTransGen.head s8
      (Relation.ReflTransGen.head s9 (Relation.ReflTransGen.head s10
        Relation.ReflTransGen.refl)))))))))
  exact ⟨hreach, C9_dispatcher_bound_and_coverage [0] dispFinalState hreach⟩

/-! ## Claims C7 and C5 (probe strategy) -/

/-- Every probe record is transport-success (`"ok"`) or failure
(`"error"`); no other `status` value is produced by the probe. -/
theorem fetch_status_cases (b : ServerBehavior) :
    (fetchWithHeadThenGet b).status = "ok" ∨ (fetchWithHeadThenGet b).status = "error" := by
  unfold fetchWithHeadThenGet fetchGetPhase
  cases b.headResp with
  | none =>
    cases b.getResp with
    | none => right; rfl
    | some s => by_cases h : axiosAccepts s = true <;> simp [h]
  | some s1 =>
    by_cases h1 : axiosAccepts s1 = true
    · simp [h1]
    · simp only [Bool.not_eq_true] at h1
      cases b.getResp with
      | none => simp [h1]
      | some s2 => by_cases h2 : axiosAccepts s2 = true <;> simp [h1, h2]

/-- C7: whenever the header-only phase fails (no response, or a
status axios rejects) and the body-capable phase succeeds, the
recorded outcome carries phase 2's HTTP status, and its elapsed
time is phase 2's duration alone — the phase-1 time is
discarded. -/
theorem C7_fallback_uses_phase2_status_and_timing (b : ServerBehavior) (s2 : Nat)
    (hfail : ∀ s, b.headResp = some s → axiosAccepts s = false)
    (hget : b.getResp = some s2) (hacc : axiosAccepts s2 = true) :
    fetchWithHeadThenGet b =
      { status := "ok", httpStatus := some s2, timeMs := b.getMs, error := none } := by
  unfold fetchWithHeadThenGet fetchGetPhase
  cases hh : b.headResp with
  | none => simp [hget, hacc, Nat.zero_add, Nat.add_sub_cancel_left]
  | some s1 =>
    have h1 := hfail s1 hh
    simp [h1, hget, hacc, Nat.zero_add, Nat.add_sub_cancel_left]

/-- A server that rejects header-only checks with 405 but answers
the fallback check with 200 after 50 ms (phase 1 took 7 ms). -/
def behavior405 : ServerBehavior :=
  ⟨some 405, 7, "Request failed with status code 405", some 200, 50, ""⟩

/-- Witness for C7 at `behavior405`: the recorded outcome is the
fallback's 200 with the fallback's 50 ms, not the 405. -/
theorem C7_witness :
    (∀ s, behavior405.headResp = some s → axiosAccepts s = false) ∧
    behavior405.getResp = some 200 ∧ axiosAccepts 200 = true ∧
    fetchWithHeadThenGet behavior405 =
      { status := "ok", httpStatus := some 200, timeMs := 50, error := none } := by
  refine ⟨?_, rfl, rfl, ?_⟩
  · intro s h
    cases h
    rfl
  · exact C7_fallback_uses_phase2_status_and_timing behavior405 200
      (by intro s h; cases h; rfl) rfl rfl

/-- A server answering 404 to both phases (5 ms and 6 ms). -/
def behavior404 : ServerBehavior :=
  ⟨some 404, 5, "Request failed with status code 404", some 404, 6,
    "Request failed with status code 404"⟩

/-- Counterexample to C5 as stated: when the server responds with
status ≥ 400 to both phases, the recorded probe outcome is *not*
marked succeeded — axios rejects non-2xx statuses by default, so
the record's `status` is `"error"` (with the HTTP status attached),
not `"ok"`. -/
theorem C5_counterexample :
    behavior404.headResp = some 404 ∧ 400 ≤ 404 ∧
    behavior404.getResp = some 404 ∧
    (fetchWithHeadThenGet behavior404).httpStatus = some 404 ∧
    ¬((fetchWithHeadThenGet behavior404).status = "ok") := by
  refine ⟨rfl, by decide, rfl, rfl, ?_⟩
  intro h
  exact absurd h (by decide)

/-- C5 amended: when the server responds to both phases with
status ≥ 400, the probe records a *failed* outcome (`"error"`)
carrying phase 2's HTTP status and elapsed time; and every final
record whose status is `"error"` passes the `broken` filter, hence
is counted in `brokenCount`. -/
theorem C5_amended_http_error_is_error_and_broken (b : ServerBehavior) (s1 s2 : Nat)
    (hh : b.headResp = some s1) (hs1 : 400 ≤ s1)
    (hg : b.getResp = some s2) (hs2 : 400 ≤ s2) :
    fetchWithHeadThenGet b =
      { status := "error", httpStatus := some s2, timeMs := b.getMs,
        error := some b.getErr } ∧
    ∀ (behavior : String → ServerBehavior) (resolve : String → Option String)
      (raws : List RawResource) (rec : FinalRecord),
      rec ∈ finalResourcesOf behavior resolve raws → rec.status = "error" →
      rec ∈ (finalResourcesOf behavior resolve raws).filter brokenPredF := by
  constructor
  · have h1 : axiosAccepts s1 = false := by
      unfold axiosAccepts
      simp only [Bool.and_eq_false_iff, decide_eq_false_iff_not, not_lt, not_le]
      right
      omega
    have h2 : axiosAccepts s2 = false := by
      unfold axiosAccepts
      simp only [Bool.and_eq_false_iff, decide_eq_false_iff_not, not_lt, not_le]
      right
      omega
    have hnz : s2 ≠ 0 := by omega
    unfold fetchWithHeadThenGet fetchGetPhase
    simp [hh, hg, h1, h2, hnz, Nat.zero_add, Nat.add_sub_cancel_left]
  · intro behavior resolve raws rec hmem hstatus
    refine List.mem_filter.mpr ⟨hmem, ?_⟩
    simp [brokenPredF, hstatus]

/-- Witness for the amended C5 at `behavior404`. -/
theorem C5_witness :
    (behavior404.headResp = some 404 ∧ 400 ≤ 404 ∧
      behavior404.getResp = some 404 ∧ 400 ≤ 404) ∧
    (fetchWithHeadThenGet behavior404 =
      { status := "error", httpStatus := some 404, timeMs := 6,
        error := some "Request failed with status code 404" } ∧
    ∀ (behavior : String → ServerBehavior) (resolve : String → Option String)
      (raws : List RawResource) (rec : FinalRecord),
      rec ∈ finalResourcesOf behavior resolve raws → rec.status = "error" →
      rec ∈ (finalResourcesOf behavior resolve raws).filter brokenPredF) :=
  ⟨⟨rfl, by decide, rfl, by decide⟩,
    C5_amended_http_error_is_error_and_broken behavior404 404 404 rfl (by decide) rfl
      (by decide)⟩

/-! ## Claim C8 (skippability) -/

/-- C8: (1) the code's skippability test agrees with the
specification's characterisation — after trimming and
lower-casing, the reference is empty, exactly `#`, or begins with
`javascript:`, `mailto:` or `tel:` — on every string; (2) a
skippable reference that resolves is classified `skipped` in the
final output (one that fails resolution cannot arise: each of the
skippable forms parses against any valid absolute base URL);
(3) no skippable reference is ever probed: every probed record
stems from a non-skippable item. -/
theorem C8_skippable_iff_and_never_probed :
    (∀ s : String, isSkippableHref s = skippableSpec s) ∧
    (∀ (behavior : String → ServerBehavior) (resolve : String → Option String)
       (raws : List RawResource) (i : Nat) (r : RawResource),
       raws[i]? = some r → isSkippableHref r.raw = true → (resolve r.raw).isSome →
       ((finalResourcesOf behavior resolve raws)[i]?).map (fun rec => rec.status) =
         some "skipped") ∧
    (∀ (behavior : String → ServerBehavior) (resolve : String → Option String)
       (raws : List RawResource) (c : FinalRecord),
       c ∈ checkedOf behavior resolve raws → c.skippable = false) := by
  refine ⟨?_, ?_, ?_⟩
  · intro s
    by_cases hs : s = ""
    · subst hs
      rfl
    · simp only [isSkippableHref, skippableSpec, if_neg hs]
      simp only [Bool.or_assoc, Bool.or_comm, Bool.or_left_comm]
  · intro behavior resolve raws i r h hskip hres
    obtain ⟨u, hu⟩ := Option.isSome_iff_exists.mp hres
    have hb := buildResources_getElem? resolve raws i r h
    unfold finalResourcesOf
    rw [List.getElem?_map, hb]
    simp [classifyOne, hu, hskip, skippedRecord]
  · intro behavior resolve raws c hc
    obtain ⟨r, hr, hcr⟩ := List.mem_map.mp hc
    have hr2 : r ∈ toCheckOf resolve raws := List.mem_of_mem_take hr
    have hpred := (List.mem_filter.mp hr2).2
    simp only [Bool.and_eq_true, Bool.not_eq_eq_eq_not, Bool.not_true] at hpred
    rw [← hcr]
    exact hpred.2

/-- Witness for C8 on the spec's scenario reference
`javascript:void(0)` (which resolves, to itself, under WHATWG
resolution): it is skippable, classified `skipped`, and absent
from the probed records. -/
theorem C8_witness :
    (isSkippableHref "javascript:void(0)" = skippableSpec "javascript:void(0)") ∧
    (([(⟨"image", "javascript:void(0)"⟩ : RawResource)])[0]? =
        some (⟨"image", "javascript:void(0)"⟩ : RawResource) ∧
      isSkippableHref "javascript:void(0)" = true ∧
      ((fun _ : String => some "javascript:void(0)") "javascript:void(0)").isSome) ∧
    ((finalResourcesOf (fun _ => behavior404) (fun _ => some "javascript:void(0)")
        [⟨"image", "javascript:void(0)"⟩])[0]?).map (fun rec => rec.status) =
      some "skipped" := by
  refine ⟨C8_skippable_iff_and_never_probed.1 "javascript:void(0)", ⟨rfl, ?_, rfl⟩, ?_⟩
  · decide
  · exact C8_skippable_iff_and_never_probed.2.1 (fun _ => behavior404)
      (fun _ => some "javascript:void(0)") [⟨"image", "javascript:void(0)"⟩] 0
      ⟨"image", "javascript:void(0)"⟩ rfl (by decide) rfl

/-! ## Claims C10, C2, C3 (ids and duplicate links) -/

theorem buildResourcesGo_length (resolve : String → Option String) :
    ∀ (l : List RawResource) (idx : Nat) (seen : List (Option String × String)),
      (buildResourcesGo resolve idx seen l).length = l.length := by
  intro l
  induction l with
  | nil => intro idx seen; rfl
  | cons r rest ih =>
    intro idx seen
    simp only [buildResourcesGo, List.length_cons]
    rw [ih]

theorem buildResources_length (resolve : String → Option String) (raws : List RawResource) :
    (buildResources resolve raws).length = raws.length :=
  buildResourcesGo_length resolve raws 0 []

/-- A resolved entry's id is its resolved URL. -/
theorem id_of_resolved (resolve : String → Option String) (raws : List RawResource)
    (i : Nat) (rec : Resource) (u : String)
    (hrec : (buildResources resolve raws)[i]? = some rec)
    (hres : rec.resolved = some u) : rec.id = u := by
  have hlt : i < raws.length := by
    have h1 := List.getElem?_eq_some_iff.mp hrec
    obtain ⟨h1, _⟩ := h1
    rwa [buildResources_length] at h1
  have hr := List.getElem?_eq_getElem hlt
  rw [buildResources_getElem? resolve raws i _ hr] at hrec
  obtain rfl := Option.some.injEq _ _ ▸ hrec
  simp only at hres ⊢
  simp only [keyOf, hres]

/-- C10: when several references all fail URL resolution, the
`seen` map keys them all on the `null` resolution value, so every
unresolved reference after the first has `duplicateOf` set to the
first unresolved reference's id, and the first has none. -/
theorem C10_unresolved_share_first_unresolved_id
    (resolve : String → Option String) (raws : List RawResource)
    (i j : Nat) (ri rj : RawResource)
    (hij : i < j)
    (hi : raws[i]? = some ri) (hj : raws[j]? = some rj)
    (hri : resolve ri.raw = none) (hrj : resolve rj.raw = none)
    (hfirst : ∀ k rk, k < i → raws[k]? = some rk → resolve rk.raw ≠ none) :
    ∃ reci recj, (buildResources resolve raws)[i]? = some reci ∧
      (buildResources resolve raws)[j]? = some recj ∧
      reci.duplicateOf = none ∧
      recj.duplicateOf = some reci.id := by
  refine ⟨_, _, buildResources_getElem? resolve raws i ri hi,
    buildResources_getElem? resolve raws j rj hj, ?_, ?_⟩
  · simp only [hri]
    cases hfk : firstKey resolve (raws.take i) 0 none with
    | none => rfl
    | some v =>
      obtain ⟨k, rk, hk, hres, _⟩ := firstKey_eq_some resolve (raws.take i) 0 none v hfk
      have hklt : k < i := by
        have := List.getElem?_eq_some_iff.mp hk
        obtain ⟨hlen, _⟩ := this
        have := List.length_take_le i raws
        omega
      have hk2 : raws[k]? = some rk := by
        rwa [List.getElem?_take_of_lt hklt] at hk
      exact absurd hres (hfirst k rk hklt hk2)
  · simp only [hri, hrj, keyOf]
    have hfk : firstKey resolve (raws.take j) 0 none =
        some (keyOf resolve ri (0 + i)) := by
      refine firstKey_of_first resolve (raws.take j) 0 none i ri ?_ hri ?_
      · rwa [List.getElem?_take_of_lt hij]
      · intro k rk hk hkk
        rw [List.getElem?_take_of_lt (by omega)] at hkk
        exact hfirst k rk hk hkk
    rw [hfk, Nat.zero_add]
    simp [keyOf, hri]

/-- Raw references for the C10 witness: one resolvable reference
followed by two unresolvable ones. -/
def rawsC10 : List RawResource :=
  [⟨"anchor", "good"⟩, ⟨"anchor", "bad1"⟩, ⟨"anchor", "bad2"⟩]

/-- The resolver for the C10 witness. -/
def resolveC10 : String → Option String :=
  fun s => if s = "good" then some "https://example.com/good" else none

/-- Witness for C10 at `rawsC10`: the second unresolved reference
points at the first unresolved one, which itself has no
`duplicateOf`. -/
theorem C10_witness :
    ((1 : Nat) < 2 ∧ rawsC10[1]? = some ⟨"anchor", "bad1"⟩ ∧
      rawsC10[2]? = some ⟨"anchor", "bad2"⟩ ∧
      resolveC10 "bad1" = none ∧ resolveC10 "bad2" = none) ∧
    (∃ reci recj, (buildResources resolveC10 rawsC10)[1]? = some reci ∧
      (buildResources resolveC10 rawsC10)[2]? = some recj ∧
      reci.duplicateOf = none ∧
      recj.duplicateOf = some reci.id) := by
  refine ⟨⟨by decide, rfl, rfl, by decide, by decide⟩, ?_⟩
  refine C10_unresolved_share_first_unresolved_id resolveC10 rawsC10 1 2
    ⟨"anchor", "bad1"⟩ ⟨"anchor", "bad2"⟩ (by decide) rfl rfl (by decide) (by decide) ?_
  intro k rk hk hkk
  have hk0 : k = 0 := by omega
  subst hk0
  simp only [rawsC10, List.getElem?_cons_zero, Option.some.injEq] at hkk
  rw [← hkk]
  decide

/-- The resolver of the duplicate-anchor scenario: `/about`
against base `https://example.com/`. -/
def exResolve : String → Option String :=
  fun s => if s = "/about" then some "https://example.com/about" else none

/-- Two anchors to `/about`, as in the specification's scenario. -/
def exRaws : List RawResource :=
  [⟨"anchor", "/about"⟩, ⟨"anchor", "/about"⟩]

/-- A throwaway default for list indexing. -/
def defaultResource : Resource := ⟨"", "", "", none, false, none⟩

/-- Counterexample to C2 as stated: the id of a reference is its
resolved URL (`key = resolved || ...`), so the second `/about`
anchor's `duplicateOf` — the first occurrence's id, which is that
same URL — *equals its own id*. -/
theorem C2_counterexample :
    ((buildResources exResolve exRaws).getD 1 defaultResource).duplicateOf =
      some ((buildResources exResolve exRaws).getD 1 defaultResource).id := by
  decide

/-- C2 amended: a set `duplicateOf` always equals the id of a
result appearing strictly earlier in discovery order; it can
however coincide with the result's own id, because a duplicate
shares its id (the resolved URL) with the first occurrence. -/
theorem C2_amended_duplicateOf_refers_to_earlier
    (resolve : String → Option String) (raws : List RawResource)
    (i : Nat) (rec : Resource) (d : String)
    (hrec : (buildResources resolve raws)[i]? = some rec)
    (hdup : rec.duplicateOf = some d) :
    ∃ j recj, j < i ∧ (buildResources resolve raws)[j]? = some recj ∧ recj.id = d := by
  have hlt : i < raws.length := by
    obtain ⟨h1, _⟩ := List.getElem?_eq_some_iff.mp hrec
    rwa [buildResources_length] at h1
  have hr := List.getElem?_eq_getElem hlt
  rw [buildResources_getElem? resolve raws i _ hr] at hrec
  obtain rfl := Option.some.injEq _ _ ▸ hrec
  simp only at hdup
  obtain ⟨k, rk, hk, hres, hkey⟩ :=
    firstKey_eq_some resolve (raws.take i) 0 _ d hdup
  have hklt : k < i := by
    obtain ⟨hlen, _⟩ := List.getElem?_eq_some_iff.mp hk
    have := List.length_take_le i raws
    omega
  have hk2 : raws[k]? = some rk := by
    rwa [List.getElem?_take_of_lt hklt] at hk
  refine ⟨k, _, hklt, buildResources_getElem? resolve raws k rk hk2, ?_⟩
  simp only
  rw [hkey, Nat.zero_add]

/-- Witness for the amended C2 at the duplicate-anchor scenario. -/
theorem C2_witness :
    ((buildResources exResolve exRaws)[1]? = some
      { id := "https://example.com/about", type := "anchor", raw := "/about",
        resolved := some "https://example.com/about", skippable := false,
        duplicateOf := some "https://example.com/about" }) ∧
    (∃ j recj, j < 1 ∧ (buildResources exResolve exRaws)[j]? = some recj ∧
      recj.id = "https://example.com/about") := by
  constructor
  · decide
  · exact C2_amended_duplicateOf_refers_to_earlier exResolve exRaws 1
      { id := "https://example.com/about", type := "anchor", raw := "/about",
        resolved := some "https://example.com/about", skippable := false,
        duplicateOf := some "https://example.com/about" }
      "https://example.com/about" (by decide) rfl

/-- Counterexample to C3 as stated: the two `/about` anchors are
distinct positions of the run but carry the *same* id (their
shared resolved URL). -/
theorem C3_counterexample :
    ((buildResources exResolve exRaws).getD 0 defaultResource).id =
      ((buildResources exResolve exRaws).getD 1 defaultResource).id ∧
    (0 : Nat) ≠ 1 := by
  decide

/-- C3 amended: an id is unique *per resolved URL*, not per
reference — results resolving to distinct URLs get distinct ids,
while all results resolving to one URL share that URL as their id
(so ids repeat exactly when a resolved URL repeats). -/
theorem C3_amended_ids_unique_per_resolved_url
    (resolve : String → Option String) (raws : List RawResource)
    (i j : Nat) (reci recj : Resource) (u v : String)
    (hi : (buildResources resolve raws)[i]? = some reci)
    (hj : (buildResources resolve raws)[j]? = some recj)
    (hu : reci.resolved = some u) (hv : recj.resolved = some v) :
    (u ≠ v → reci.id ≠ recj.id) ∧ (u = v → reci.id = recj.id) := by
  have h1 := id_of_resolved resolve raws i reci u hi hu
  have h2 := id_of_resolved resolve raws j recj v hj hv
  constructor
  · intro huv
    rw [h1, h2]
    exact huv
  · intro huv
    rw [h1, h2, huv]

/-- Witness for the amended C3 at the duplicate-anchor scenario
(`j = 1` shares the URL of `j = 0`, so they share an id). -/
theorem C3_witness :
    (((buildResources exResolve exRaws).getD 0 defaultResource).resolved =
        some "https://example.com/about" ∧
      ((buildResources exResolve exRaws).getD 1 defaultResource).resolved =
        some "https://example.com/about") ∧
    (("https://example.com/about" ≠ "https://example.com/about" →
        ((buildResources exResolve exRaws).getD 0 defaultResource).id ≠
          ((buildResources exResolve exRaws).getD 1 defaultResource).id) ∧
      ("https://example.com/about" = "https://example.com/about" →
        ((buildResources exResolve exRaws).getD 0 defaultResource).id =
          ((buildResources exResolve exRaws).getD 1 defaultResource).id)) := by
  refine ⟨⟨by decide, by decide⟩, ?_⟩
  exact C3_amended_ids_unique_per_resolved_url exResolve exRaws 0 1
    ((buildResources exResolve exRaws).getD 0 defaultResource)
    ((buildResources exResolve exRaws).getD 1 defaultResource)
    "https://example.com/about" "https://example.com/about"
    (by decide) (by decide) (by decide) (by decide)

/-! ## Lookup lemmas for the merge (`checkedMap`) -/

theorem lastAssoc_foldl_none (k : Option String) :
    ∀ (l : List (Option String × FinalRecord)) (acc : Option FinalRecord),
      l.foldl (fun acc p => if p.1 = k then some p.2 else acc) acc = none ↔
        (acc = none ∧ ∀ p ∈ l, p.1 ≠ k) := by
  intro l
  induction l with
  | nil => intro acc; simp
  | cons p t ih =>
    intro acc
    simp only [List.foldl_cons]
    rw [ih]
    by_cases hp : p.1 = k
    · simp [hp]
    · simp only [hp, if_neg, List.mem_cons]
      constructor
      · rintro ⟨ha, ht⟩
        refine ⟨ha, ?_⟩
        rintro q (rfl | hq)
        · exact hp
        · exact ht q hq
      · rintro ⟨ha, ht⟩
        exact ⟨ha, fun q hq => ht q (Or.inr hq)⟩

theorem lastAssoc_foldl_some (k : Option String) :
    ∀ (l : List (Option String × FinalRecord)) (acc : Option FinalRecord) (v : FinalRecord),
      l.foldl (fun acc p => if p.1 = k then some p.2 else acc) acc = some v →
      (k, v) ∈ l ∨ acc = some v := by
  intro l
  induction l with
  | nil => intro acc v h; right; exact h
  | cons p t ih =>
    intro acc v h
    simp only [List.foldl_cons] at h
    rcases ih _ v h with hmem | hacc
    · left; exact List.mem_cons_of_mem p hmem
    · by_cases hp : p.1 = k
      · rw [if_pos hp] at hacc
        left
        obtain rfl := Option.some.injEq _ _ ▸ hacc
        rw [← hp]
        exact List.mem_cons_self p t
      · rw [if_neg hp] at hacc
        right; exact hacc

theorem checkedGet_eq_none_iff (checked : List FinalRecord) (k : Option String) :
    checkedGet checked k = none ↔ ∀ c ∈ checked, c.resolved ≠ k := by
  unfold checkedGet lastAssoc
  rw [lastAssoc_foldl_none]
  simp

theorem checkedGet_eq_some (checked : List FinalRecord) (k : Option String) (v : FinalRecord)
    (h : checkedGet checked k = some v) : v ∈ checked ∧ v.resolved = k := by
  unfold checkedGet lastAssoc at h
  rcases lastAssoc_foldl_some k _ none v h with hmem | hacc
  · obtain ⟨c, hc, hcv⟩ := List.mem_map.mp hmem
    obtain ⟨h1, h2⟩ := Prod.mk.injEq _ _ _ _ ▸ hcv
    rw [← h2]
    exact ⟨hc, h1⟩
  · exact absurd hacc (by simp)

/-- Provenance of a probed record: it is the merge of a capped
checkable item with its probe result. -/
theorem checkedOf_mem (behavior : String → ServerBehavior) (resolve : String → Option String)
    (raws : List RawResource) (c : FinalRecord) (h : c ∈ checkedOf behavior resolve raws) :
    ∃ rr, rr ∈ toCheckLimitedOf resolve raws ∧
      c = mergeChecked rr (fetchWithHeadThenGet (behavior (urlOf rr))) := by
  obtain ⟨rr, hrr, hc⟩ := List.mem_map.mp h
  exact ⟨rr, hrr, hc.symm⟩

theorem finalResourcesOf_getElem? (behavior : String → ServerBehavior)
    (resolve : String → Option String) (raws : List RawResource) (i : Nat) :
    (finalResourcesOf behavior resolve raws)[i]? =
      ((buildResources resolve raws)[i]?).map
        (classifyOne (checkedOf behavior resolve raws)) := by
  unfold finalResourcesOf
  exact List.getElem?_map _ _ _

/-- A final record with transport-success status carries an
elapsed time: only merged probe records have status `"ok"`, and
the probe always records `timeMs`. -/
theorem final_ok_timeMs (behavior : String → ServerBehavior)
    (resolve : String → Option String) (raws : List RawResource) (rec : FinalRecord)
    (hmem : rec ∈ finalResourcesOf behavior resolve raws) (hok : rec.status = "ok") :
    rec.timeMs.isSome := by
  obtain ⟨r, hr, hrec⟩ := List.mem_map.mp hmem
  subst hrec
  unfold classifyOne at hok ⊢
  cases hres : r.resolved with
  | none => simp [hres, unresolvedRecord] at hok
  | some u =>
    simp only [hres] at hok ⊢
    by_cases hskip : r.skippable
    · simp [hskip, skippedRecord] at hok
    · simp only [hskip, if_neg, Bool.false_eq_true, if_false] at hok ⊢
      cases hfound : checkedGet (checkedOf behavior resolve raws) (some u) with
      | none => simp [hfound, notCheckedRecord] at hok
      | some found =>
        simp only [hfound]
        obtain ⟨hfmem, _⟩ := checkedGet_eq_some _ _ _ hfound
        obtain ⟨rr, _, hmerge⟩ := checkedOf_mem behavior resolve raws found hfmem
        rw [hmerge]
        rfl

/-! ## Claim C4 (the checkable-resource cap) -/

/-- C4 amended: exactly the first `MAX_CHECK` checkable items are
probed (`toCheckLimited` is that prefix, and one probe record is
produced per element of it); and a checkable item of the final
output is classified `not_checked` *iff its resolved URL was not
probed* — an over-cap item sharing its URL with a probed item
receives that probe's record instead of `not_checked`. -/
theorem C4_amended_cap_and_unprobed_classification
    (behavior : String → ServerBehavior) (resolve : String → Option String)
    (raws : List RawResource) :
    toCheckLimitedOf resolve raws = (toCheckOf resolve raws).take MAX_CHECK ∧
    (checkedOf behavior resolve raws).length = min MAX_CHECK (toCheckOf resolve raws).length ∧
    (∀ (i : Nat) (rec : FinalRecord) (u : String),
      (finalResourcesOf behavior resolve raws)[i]? = some rec →
      rec.resolved = some u → rec.skippable = false →
      (rec.status = "not_checked" ↔
        some u ∉ (toCheckLimitedOf resolve raws).map Resource.resolved)) := by
  refine ⟨rfl, ?_, ?_⟩
  · unfold checkedOf toCheckLimitedOf
    rw [List.length_map, List.length_take]
  · intro i rec u hrec hres hskip
    rw [finalResourcesOf_getElem?] at hrec
    obtain ⟨r, hr, hclass⟩ := Option.map_eq_some'.mp hrec
    subst hclass
    cases hr2 : r.resolved with
    | none => simp [classifyOne, hr2, unresolvedRecord] at hres
    | some u0 =>
      by_cases hsk : r.skippable
      · simp [classifyOne, hr2, hsk, skippedRecord] at hskip
      · cases hfound : checkedGet (checkedOf behavior resolve raws) (some u0) with
        | some found =>
          have hrec_eq : classifyOne (checkedOf behavior resolve raws) r = found := by
            simp [classifyOne, hr2, hsk, hfound]
          rw [hrec_eq] at hres ⊢
          obtain ⟨hfmem, hfres⟩ := checkedGet_eq_some _ _ _ hfound
          have huu : u0 = u := by
            rw [hfres] at hres
            exact Option.some.injEq _ _ ▸ hres
          obtain ⟨rr, hrrmem, hmerge⟩ := checkedOf_mem _ _ _ found hfmem
          have hstat : found.status = "ok" ∨ found.status = "error" := by
            rw [hmerge]
            exact fetch_status_cases _
          constructor
          · intro hnc
            rcases hstat with h | h <;> rw [hnc] at h <;> exact absurd h (by decide)
          · intro hnotin
            exfalso
            apply hnotin
            refine List.mem_map.mpr ⟨rr, hrrmem, ?_⟩
            have hr3 : rr.resolved = found.resolved := by rw [hmerge]; rfl
            rw [hr3, hfres, huu]
        | none =>
          have hrec_eq : classifyOne (checkedOf behavior resolve raws) r =
              notCheckedRecord r := by
            simp [classifyOne, hr2, hsk, hfound]
          rw [hrec_eq] at hres ⊢
          have huu : u0 = u := by
            simp only [notCheckedRecord, hr2, Option.some.injEq] at hres
            exact hres
          refine ⟨fun _ => ?_, fun _ => rfl⟩
          intro hin
          obtain ⟨rr, hrrmem, hrres⟩ := List.mem_map.mp hin
          have hcmem : mergeChecked rr (fetchWithHeadThenGet (behavior (urlOf rr))) ∈
              checkedOf behavior resolve raws :=
            List.mem_map.mpr ⟨rr, hrrmem, rfl⟩
          have hne := (checkedGet_eq_none_iff _ _).mp hfound _ hcmem
          apply hne
          show rr.resolved = some u0
          rw [hrres, huu]

/-- A server answering every HEAD with 200 in 50 ms. -/
def behaviorOk : ServerBehavior := ⟨some 200, 50, "", some 200, 10, ""⟩

/-- 301 anchors with the same raw reference. -/
def raws301 : List RawResource := List.replicate 301 ⟨"anchor", "a"⟩

/-- A resolver sending every reference to one URL. -/
def resolveSame : String → Option String := fun _ => some "https://example.com/a"

/-- A throwaway default for final-list indexing. -/
def defaultFinal : FinalRecord := ⟨"", "", "", none, false, none, "", none, none, none, none⟩

/-- Counterexample to C4 as stated: with 301 checkable items all
resolving to one URL, the 301st is beyond the cap, yet the merge
finds its URL in `checkedMap` and classifies it with the probe's
result (`"ok"`), not `not_checked`. -/
theorem C4_counterexample :
    MAX_CHECK = 300 ∧
    (toCheckOf resolveSame raws301).length = 301 ∧
    ((finalResourcesOf (fun _ => behaviorOk) resolveSame raws301).getD 300
        defaultFinal).status = "ok" ∧
    ((finalResourcesOf (fun _ => behaviorOk) resolveSame raws301).getD 300
        defaultFinal).status ≠ "not_checked" := by
  refine ⟨rfl, by decide, rfl, ?_⟩
  intro h
  rw [show ((finalResourcesOf (fun _ => behaviorOk) resolveSame raws301).getD 300
      defaultFinal).status = "ok" from rfl] at h
  exact absurd h (by decide)

/-- 300 anchors to one URL followed by one anchor to another. -/
def raws301b : List RawResource :=
  List.replicate 300 ⟨"anchor", "a"⟩ ++ [⟨"anchor", "b"⟩]

/-- The resolver for `raws301b`. -/
def resolveAB : String → Option String :=
  fun s => if s = "b" then some "https://example.com/b" else some "https://example.com/a"

/-- The expected final record of the over-cap item with an
unprobed URL. -/
def recNotChecked : FinalRecord :=
  { id := "https://example.com/b", type := "anchor", raw := "b",
    resolved := some "https://example.com/b", skippable := false, duplicateOf := none,
    status := "not_checked", httpStatus := none, timeMs := none, error := none,
    note := some "Not checked (limit reached or queued)" }

/-- Witness for the amended C4: the 301st checkable item resolves
to an unprobed URL and is classified `not_checked`. -/
theorem C4_witness :
    ((finalResourcesOf (fun _ => behaviorOk) resolveAB raws301b)[300]? =
        some recNotChecked ∧
      recNotChecked.resolved = some "https://example.com/b" ∧
      recNotChecked.skippable = false) ∧
    (recNotChecked.status = "not_checked" ↔
      some "https://example.com/b" ∉
        (toCheckLimitedOf resolveAB raws301b).map Resource.resolved) := by
  refine ⟨⟨by decide, rfl, rfl⟩, ?_⟩
  exact (C4_amended_cap_and_unprobed_classification (fun _ => behaviorOk) resolveAB
    raws301b).2.2 300 recNotChecked "https://example.com/b" (by decide) rfl rfl

/-! ## Claim C6 (average response time) -/

/-- C6 amended: `averageResponseMs` is absent iff no item of the
final list has a transport-success probe outcome; when present it
is the arithmetic mean of the elapsed times of exactly those items
*rounded to the nearest integer* (halves up, `Math.round`). -/
theorem C6_amended_average (behavior : String → ServerBehavior)
    (resolve : String → Option String) (raws : List RawResource) :
    (averageResponseMsOf behavior resolve raws = none ↔
      ∀ rec ∈ finalResourcesOf behavior resolve raws, rec.status ≠ "ok") ∧
    (∀ v, averageResponseMsOf behavior resolve raws = some v →
      v = jsMathRound (timesOf (finalResourcesOf behavior resolve raws)).sum
            (timesOf (finalResourcesOf behavior resolve raws)).length ∧
      timesOf (finalResourcesOf behavior resolve raws) =
        ((finalResourcesOf behavior resolve raws).filter
          (fun rec => rec.status == "ok")).filterMap (fun rec => rec.timeMs)) := by
  have hA : timesOf (finalResourcesOf behavior resolve raws) =
      ((finalResourcesOf behavior resolve raws).filter
        (fun rec => rec.status == "ok")).filterMap (fun rec => rec.timeMs) := by
    unfold timesOf
    congr 1
    apply List.filter_congr
    intro r hr
    cases hs : r.status == "ok" with
    | false => rw [Bool.and_false]
    | true =>
      have hsome := final_ok_timeMs behavior resolve raws r hr (eq_of_beq hs)
      rw [hsome, Bool.true_and]
  constructor
  · constructor
    · intro hnone rec hrec hok
      have hlen : (timesOf (finalResourcesOf behavior resolve raws)).length = 0 := by
        unfold averageResponseMsOf avgResponseOf at hnone
        by_cases h : (timesOf (finalResourcesOf behavior resolve raws)).length = 0
        · exact h
        · rw [if_neg h] at hnone
          exact Option.noConfusion hnone
      have htimes := List.length_eq_zero.mp hlen
      rw [hA] at htimes
      have hrecfil : rec ∈ (finalResourcesOf behavior resolve raws).filter
          (fun rec => rec.status == "ok") :=
        List.mem_filter.mpr ⟨hrec, by simp [hok]⟩
      have hnone2 := List.filterMap_eq_nil_iff.mp htimes rec hrecfil
      have hsome := final_ok_timeMs behavior resolve raws rec hrec hok
      rw [hnone2] at hsome
      exact absurd hsome (by simp)
    · intro hno
      have hfil : (finalResourcesOf behavior resolve raws).filter
          (fun rec => rec.status == "ok") = [] := by
        apply List.filter_eq_nil_iff.mpr
        intro a ha hb
        exact hno a ha (eq_of_beq hb)
      unfold averageResponseMsOf avgResponseOf
      rw [hA, hfil]
      simp
  · intro v hv
    refine ⟨?_, hA⟩
    unfold averageResponseMsOf avgResponseOf at hv
    by_cases h : (timesOf (finalResourcesOf behavior resolve raws)).length = 0
    · rw [if_pos h] at hv
      exact Option.noConfusion hv
    · rw [if_neg h] at hv
      exact (Option.some.injEq _ _ ▸ hv).symm

/-- A server taking 1 ms on `/x` and 2 ms on `/y`. -/
def behaviorXY : String → ServerBehavior :=
  fun u => if u = "https://example.com/x" then ⟨some 200, 1, "", some 200, 1, ""⟩
    else ⟨some 200, 2, "", some 200, 2, ""⟩

/-- The resolver of the two-anchor timing scenario. -/
def resolveXY : String → Option String :=
  fun s => if s = "x" then some "https://example.com/x" else some "https://example.com/y"

/-- Two anchors probed at 1 ms and 2 ms. -/
def rawsXY : List RawResource := [⟨"anchor", "x"⟩, ⟨"anchor", "y"⟩]

/-- Counterexample to C6 as stated: with successful probe times
1 ms and 2 ms the summary reports 2 (`Math.round(1.5)`), which is
not the arithmetic mean 3/2 of those times. -/
theorem C6_counterexample :
    timesOf (finalResourcesOf behaviorXY resolveXY rawsXY) = [1, 2] ∧
    averageResponseMsOf behaviorXY resolveXY rawsXY = some 2 ∧
    ¬((2 : ℚ) = (1 + 2) / 2) := by
  refine ⟨by decide, by decide, by norm_num⟩

/-- Witness for the amended C6 at the 1 ms / 2 ms scenario. -/
theorem C6_witness :
    (averageResponseMsOf behaviorXY resolveXY rawsXY = some 2) ∧
    (2 = jsMathRound (timesOf (finalResourcesOf behaviorXY resolveXY rawsXY)).sum
        (timesOf (finalResourcesOf behaviorXY resolveXY rawsXY)).length ∧
      timesOf (finalResourcesOf behaviorXY resolveXY rawsXY) =
        ((finalResourcesOf behaviorXY resolveXY rawsXY).filter
          (fun rec => rec.status == "ok")).filterMap (fun rec => rec.timeMs)) :=
  ⟨by decide, (C6_amended_average behaviorXY resolveXY rawsXY).2 2 (by decide)⟩

/-! ## Claim C1 (duplicate marking in the final list) -/

/-- C1: evaluation at the spec's own duplicate-anchor scenario
(two `/about` anchors, both probed). The deduplication pass sets
`duplicateOf = none` on the first occurrence, but the final-list
merge `Object.assign({}, r, found)` overwrites every field of a
probed item with the checked record's fields — and the record kept
in `checkedMap` for the shared URL is a duplicate's — so in the
*final* output the first occurrence has `duplicateOf` set (to the
URL, its own id). The claimed invariant fails on the final list,
though it holds after the dedup pass. -/
theorem C1_merge_overwrites_first_occurrence_duplicateOf :
    ((buildResources exResolve exRaws).getD 0 defaultResource).duplicateOf = none ∧
    ((finalResourcesOf (fun _ => behaviorOk) exResolve exRaws).getD 0
        defaultFinal).status = "ok" ∧
    ((finalResourcesOf (fun _ => behaviorOk) exResolve exRaws).getD 0
        defaultFinal).duplicateOf = some "https://example.com/about" := by
  refine ⟨by decide, rfl, by decide⟩

end PageAnalyzer
